import Mathlib

/-!
A verification development for the famdb partitioned-taxonomy engine
(`famdb_classes.py`, `famdb_helper_classes.py`, `famdb_helper_methods.py`,
`famdb_globals.py`).  The Python code is shallowly embedded: HDF5 files
become explicit record states, Python dynamic nested lists become the
`PyTree` inductive, exceptions become `Except String`, and Python
truthiness is made explicit wherever the source relies on it.
All definitions are executable; recursion that the source performs on
the file's taxonomy graph is bounded by an explicit fuel parameter
(the Python interpreter's recursion limit plays the same role).
-/

namespace FamDBModel

/-! ## Small string utilities (Python `str` operations used by the source)

These are written over `List Char` by structural recursion so that
every concrete computation reduces inside the kernel. -/

/-- `startsWithL hay pat`: Python `hay.startswith(pat)` on exploded strings. -/
def startsWithL : List Char → List Char → Bool
  | _, [] => true
  | [], _ :: _ => false
  | h :: hs, p :: ps => h = p && startsWithL hs ps

/-- `startsWithS s t`: Python `s.startswith(t)`. -/
def startsWithS (s t : String) : Bool := startsWithL s.data t.data

/-- `hasSubL hay pat`: Python `pat in hay` (substring containment). -/
def hasSubL (hay pat : List Char) : Bool :=
  match hay with
  | [] => startsWithL [] pat
  | _ :: t => startsWithL hay pat || hasSubL t pat

/-- `hasSubS s t`: Python `t in s` for strings. -/
def hasSubS (s t : String) : Bool := hasSubL s.data t.data

/-- Characters strictly before the first `:`; helper for Python `s.split(":")`. -/
def upToColon : List Char → List Char
  | [] => []
  | c :: cs => if c = ':' then [] else c :: upToColon cs

/-- Characters strictly after the first `:`; helper for Python `s.split(":")`. -/
def afterColonL : List Char → List Char
  | [] => []
  | c :: cs => if c = ':' then cs else afterColonL cs

/-- Python `s.split(":")[1]`: the text between the first and second colon
(or to the end when there is no second colon).  Only ever applied by the
source to boundary-marker strings such as `"leaf_link:9606"`. -/
def pySplitColon1 (s : String) : String :=
  String.mk (upToColon (afterColonL s.data))

/-- Python `s.lower()` (the names handled by famdb are ASCII). -/
def strLower (s : String) : String := String.mk (s.data.map Char.toLower)

/-- Python `s.split(",")` on exploded strings: splits at every comma,
keeping empty pieces (so `"".split(",") == [""]`). -/
def splitCommaL : List Char → List (List Char)
  | [] => [[]]
  | c :: cs =>
    if c = ',' then [] :: splitCommaL cs
    else
      match splitCommaL cs with
      | [] => [[c]]
      | p :: ps => (c :: p) :: ps

/-- Python whitespace test for `str.strip()`. -/
def isPyWs (c : Char) : Bool :=
  c = ' ' || c = '\t' || c = '\n' || c = '\r' || c = '\x0b' || c = '\x0c'

/-- Python `s.strip()`. -/
def stripWs (s : String) : String :=
  String.mk (((s.data.dropWhile isPyWs).reverse.dropWhile isPyWs).reverse)

/-- Characters strictly before the first `[`; Python `s.split("[")[0]`. -/
def upToBracket : List Char → List Char
  | [] => []
  | c :: cs => if c = '[' then [] else c :: upToBracket cs

/-- Python truthiness of an optional string attribute (`None` and `""`
are falsy, any other string is truthy). -/
def pyTruthyS : Option String → Bool
  | none => false
  | some s => s ≠ ""

/-- Python `int(term)` restricted to the shapes that matter here:
optional surrounding whitespace, an optional sign, then decimal digits
(`int` accepts more exotic forms such as underscores; the famdb search
terms never use them). -/
def pyInt (s : String) : Option Int :=
  let t := (s.data.dropWhile isPyWs).reverse.dropWhile isPyWs |>.reverse
  let (neg, ds) :=
    match t with
    | '-' :: rest => (true, rest)
    | '+' :: rest => (false, rest)
    | _ => (false, t)
  if ds = [] || !ds.all Char.isDigit then none
  else
    let n := ds.foldl (fun acc c => acc * 10 + (c.toNat - '0'.toNat)) 0
    some (if neg then -(n : Int) else (n : Int))

/-! ## famdb_globals.py -/

def GROUP_FAMILIES : String := "Families"
def GROUP_LOOKUP_BYNAME : String := "Lookup/ByName"
def GROUP_LOOKUP_BYSTAGE : String := "Lookup/ByStage"
def GROUP_NODES : String := "Taxonomy/Nodes"
def LEAF_LINK : String := "leaf_link:"
def ROOT_LINK : String := "root_link:"

/-! ## famdb_helper_methods.py: accession_bin

The source matches `dfam_acc_pat = ^(D[FR])([0-9]{2})([0-9]{2})([0-9]{2})[0-9]{3,6}$`.
`dfam_acc_match` is that anchored regular expression compiled by hand on
the exploded accession: it captures the kind letter after `D` and the six
group digits, and requires a wholly numeric 3–6 digit serial tail. -/

def dfam_acc_match (l : List Char) : Option (Char × Char × Char × Char × Char × Char × Char) :=
  match l with
  | c0 :: k :: a :: b :: c :: d :: e :: f :: s =>
    if (c0 = 'D') && (k = 'F' || k = 'R')
        && a.isDigit && b.isDigit && c.isDigit && d.isDigit && e.isDigit && f.isDigit
        && decide (3 ≤ s.length) && decide (s.length ≤ 6) && s.all Char.isDigit
    then some (k, a, b, c, d, e, f)
    else none
  | _ => none

/-- `accession_bin(acc)`: on a regex match the path is
`Families/<group1>/<group2>/<group3>/<group4>` built from the four capture
groups; otherwise `Families/Aux/` followed by the lowercased first two
characters of the accession. -/
def accession_bin (acc : String) : String :=
  match dfam_acc_match acc.data with
  | some (k, a, b, c, d, e, f) =>
      GROUP_FAMILIES ++ "/" ++ String.mk ['D', k] ++ "/" ++ String.mk [a, b]
        ++ "/" ++ String.mk [c, d] ++ "/" ++ String.mk [e, f]
  | none => GROUP_FAMILIES ++ "/Aux/" ++ String.mk ((acc.data.take 2).map Char.toLower)

/-- Modelled from the claim's words (C2), not from the source: an accession
consisting of a 2-letter kind, two 2-digit groups, and a 3–6 digit serial. -/
def claimCanonicalPat (acc : String) : Bool :=
  match acc.data with
  | k1 :: k2 :: g1a :: g1b :: g2a :: g2b :: s =>
      k1.isAlpha && k2.isAlpha && g1a.isDigit && g1b.isDigit && g2a.isDigit && g2b.isDigit
        && decide (3 ≤ s.length) && decide (s.length ≤ 6) && s.all Char.isDigit
  | _ => false

/-! ## famdb_helper_classes.py: the Lineage value

A Python lineage tree is a nested heterogeneous list whose elements are
taxon ids (`int`), boundary-marker strings (`"leaf_link:<id>"` /
`"root_link:<id>"`) and sub-lists.  `PyTree` is that value space. -/

inductive PyTree where
  | int (n : Nat)
  | str (s : String)
  | list (xs : List PyTree)

/-- A lineage (the elements of the Python `list` subclass `Lineage`). -/
abbrev LinList := List PyTree

mutual
/-- String elements of a tree, in `repr` order.  The source discovers
markers by taking `repr(lineage)` and splitting on the quote character;
the string contents obtained that way are exactly the string elements of
the nested list, in this order. -/
def collectStrsT : PyTree → List String
  | PyTree.int _ => []
  | PyTree.str s => [s]
  | PyTree.list ys => collectStrsL ys

def collectStrsL : LinList → List String
  | [] => []
  | x :: xs => collectStrsT x ++ collectStrsL xs
end

mutual
/-- Integer elements of a tree, depth-first.  This is the source's
`walk_tree` flattener restricted to the marker-free trees it is actually
applied to (on a string element `walk_tree` would recurse forever, since
Python strings are iterable; we return an error there). -/
def walkTreeT : PyTree → Except String (List Nat)
  | PyTree.int n => Except.ok [n]
  | PyTree.str _ => Except.error "walk_tree: RecursionError on string element"
  | PyTree.list ys => walkTreeL ys

def walkTreeL : LinList → Except String (List Nat)
  | [] => Except.ok []
  | x :: xs => do
    let h ← walkTreeT x
    let t ← walkTreeL xs
    pure (h ++ t)
end

/-- Python `str()` of a tree element, as used for the keys and values of
`links[ROOT_LINK]`.  The source only ever applies it to ints (the anchor
node id) and to the anchor sub-list; for the sub-list we keep the
structure itself, so no textual `repr` is needed. -/
def pyStrOf : PyTree → String
  | PyTree.int n => Nat.repr n
  | PyTree.str s => s
  | PyTree.list _ => "<list>"

/-- The `Lineage` object: the underlying list plus the fields set by
`Lineage.__init__`.  `leafLinks` models `links[LEAF_LINK]` (the marker
texts after the colon, in repr order — the source keys them by split
position, but only the values and their order are ever used).
`rootLinks` models `links[ROOT_LINK]`: `None`, or the singleton map from
`str(lineage[1][0])` to `lineage[1]` (we keep the sub-list itself rather
than its `repr` text). -/
structure Lineage where
  tree : LinList
  ancestors : Bool
  descendants : Bool
  root : Bool
  partition : Nat
  leafLinks : List String
  rootLinks : Option (String × LinList)
  missing : List (String × Nat)

/-- `links[ROOT_LINK] = {str(lineage[1][0]): str(lineage[1])}`: the
anchor id of `lineage[1]` mapped to that sub-list (raising the Python
errors when `lineage[1]` is missing or not a list). -/
def rootLinksOf (tree : LinList) : Except String (Option (String × LinList)) :=
  match tree.get? 1 with
  | some (PyTree.list sub) =>
    match sub.get? 0 with
    | some first => Except.ok (some (pyStrOf first, sub))
    | none => Except.error "IndexError: lineage[1][0]"
  | some _ => Except.error "TypeError: lineage[1] is not subscriptable"
  | none => Except.error "IndexError: lineage[1]"

/-- `Lineage.__init__(lineage, root, partition_num)`.  Mirrors the source:
the `LEAF_LINK` branch is an `if`, the `ROOT_LINK` branch an `elif`, and
the final both-kinds guard tests the two flags (it can only see the flags
this constructor itself assigned). -/
def mkLineage (tree : LinList) (root : Bool) (partition : Nat) : Except String Lineage :=
  let strs := collectStrsL tree
  let hasLeaf := strs.any fun s => hasSubS s LEAF_LINK
  let hasRoot := strs.any fun s => hasSubS s ROOT_LINK
  let descendants := hasLeaf
  let ancestors := !hasLeaf && hasRoot
  if hasLeaf && !root then
    Except.error "Leaf Links Found In Non-Root Lineage"
  else if !hasLeaf && hasRoot && root then
    Except.error "Root Links found In Root Lineage"
  else
    let leafLinks :=
      if hasLeaf then (strs.filter fun s => hasSubS s LEAF_LINK).map pySplitColon1
      else []
    match (if ancestors then rootLinksOf tree else Except.ok none) with
    | Except.error e => Except.error e
    | Except.ok rootLinks =>
      if ancestors && descendants then
        Except.error "Lineage Should Not Contain Root Links And Leaf Links"
      else
        Except.ok { tree := tree, ancestors := ancestors, descendants := descendants,
                    root := root, partition := partition,
                    leafLinks := leafLinks, rootLinks := rootLinks, missing := [] }

mutual
/-- The structural effect of `Lineage.__add__`'s string surgery on one
tree element: a `leaf_link` marker whose id matches the leaf operand's
root-link anchor is replaced by the anchor's sub-list; any other
`leaf_link` marker is re-quoted and survives as a string. -/
def spliceT (anchor : String) (sub : LinList) : PyTree → PyTree
  | PyTree.int n => PyTree.int n
  | PyTree.str s =>
      if hasSubS s LEAF_LINK && pySplitColon1 s = anchor then PyTree.list sub
      else PyTree.str s
  | PyTree.list ys => PyTree.list (spliceL anchor sub ys)

def spliceL (anchor : String) (sub : LinList) : LinList → LinList
  | [] => []
  | x :: xs => spliceT anchor sub x :: spliceL anchor sub xs
end

/-- `Lineage.__add__`.  The ownership check is the source's first line.
When the root operand carries leaf links but the leaf operand never set
`links[ROOT_LINK]`, the source hits `None.get(...)` (`AttributeError`);
when a string element of the root operand is not a `leaf_link` marker, it
is joined back into the JSON text unquoted and `json.loads` fails.  Both
failure modes are reproduced.  On success the repr/splice/`json.loads`
round trip is the structural substitution `spliceL`, and the result is
rebuilt by the constructor with the root operand's `root` and
`partition`. -/
def lineageAdd (a b : Lineage) : Except String Lineage :=
  if (a.root && b.root) || (!a.root && !b.root) then
    Except.error "Must Combine Root and Non-Root Lineages"
  else
    let rootLin := if a.root then a else b
    let leafLin := if !a.root then a else b
    let splicedE : Except String LinList :=
      match rootLin.leafLinks with
      | [] => Except.ok rootLin.tree
      | _ :: _ =>
        match leafLin.rootLinks with
        | none => Except.error "AttributeError: NoneType object has no attribute get"
        | some (anchor, sub) => Except.ok (spliceL anchor sub rootLin.tree)
    match splicedE with
    | Except.error e => Except.error e
    | Except.ok spliced =>
      if (collectStrsL rootLin.tree).any (fun s => !hasSubS s LEAF_LINK) then
        Except.error "json.decoder.JSONDecodeError"
      else
        mkLineage spliced rootLin.root rootLin.partition

mutual
/-- `remove_links` from `get_lineage_combined`: drops every element that
is Python-falsy (`0`, `""`, `[]`) or a string, and recurses into the
sub-lists that are kept.  The emptiness test happens before recursion,
exactly as in the source (which iterates a copy and mutates in place). -/
def removeLinksT : PyTree → Option PyTree
  | PyTree.int n => if n = 0 then none else some (PyTree.int n)
  | PyTree.str _ => none
  | PyTree.list ys =>
      match ys with
      | [] => none
      | _ :: _ => some (PyTree.list (removeLinksL ys))

def removeLinksL : LinList → LinList
  | [] => []
  | x :: xs =>
      match removeLinksT x with
      | some y => y :: removeLinksL xs
      | none => removeLinksL xs
end

/-! ## famdb_classes.py: FamDBLeaf state

One HDF5 partition file, restricted to the regions the verified methods
touch: the `Taxonomy/Nodes` tables (`Parent` / `Children` / `Families`),
the family datasets (stored under their `accession_bin` path, so keyed
here by accession), the `Lookup/ByName` and `Lookup/ByStage` soft-link
groups, and the write-mode counters. -/

/-- One entry of `Taxonomy/Nodes`: the `Parent` dataset is absent exactly
when `parent = none` (`write_taxonomy` omits it for the root taxon). -/
structure TaxNodeE where
  id : Nat
  parent : Option Nat
  children : List Nat

/-- The family record attributes read by the filter pipeline and by
`add_family`. -/
structure FamilyR where
  accession : String
  name : Option String := none
  consensus : Option String := none
  model : Option String := none
  clades : List Nat := []
  search_stages : Option String := none
  buffer_stages : Option String := none
  repeat_type : Option String := none
  repeat_subtype : Option String := none

structure LeafFile where
  root : Bool
  partitionNum : Nat
  nodes : List TaxNodeE
  /-- family datasets, each stored at `accession_bin(acc)/acc` -/
  records : List (String × FamilyR) := []
  /-- keys of the `Lookup/ByName` group (family-name soft links) -/
  names : List String := []
  /-- `Lookup/ByStage`: stage name → accession soft links -/
  byStage : List (String × List String) := []
  /-- `Taxonomy/Nodes/<id>/Families`: taxon id → accession soft links -/
  nodeFamilies : List (Nat × List String) := []
  countConsensus : Nat := 0
  countHmm : Nat := 0

def lookupNode (nodes : List TaxNodeE) (tax : Nat) : Option TaxNodeE :=
  nodes.find? fun nd => nd.id = tax

/-- `str(tax_id) in self.file[GROUP_NODES]`. -/
def hasNode (nodes : List TaxNodeE) (tax : Nat) : Bool :=
  (lookupNode nodes tax).isSome

/-- `FamDBLeaf.get_families_for_taxon` without curation flags (the only
form the query planner uses): the keys of the node's `Families` group,
or `[]` when the node or the group is absent. -/
def getFamiliesForTaxonL (f : LeafFile) (tax : Nat) : List String :=
  match f.nodeFamilies.find? (fun pr => pr.1 = tax) with
  | some pr => pr.2
  | none => []

/-- `FamDBLeaf.get_family_by_accession` (truthiness of the returned
`Family` object is `isSome`). -/
def getFamilyByAccession (f : LeafFile) (acc : String) : Option FamilyR :=
  (f.records.find? (fun pr => pr.1 = acc)).map (·.2)

/-- `FamDBLeaf.filter_stages(accession, stages)`. -/
def leafFilterStages (f : LeafFile) (acc : String) (stages : List String) : Bool :=
  stages.any fun stage =>
    match f.byStage.find? (fun pr => pr.1 = stage) with
    | some grp => grp.2.contains acc
    | none => false

/-- `descendants_of` inside `FamDBLeaf.get_lineage`, with explicit fuel.
The `Sum.inl` task expands one node, the `Sum.inr` task walks a
`Children` dataset.  A child present locally is recursed into unless the
`for_combine` flag is set; otherwise (absent, or `for_combine`) a
`leaf_link` marker is emitted — only on the root partition. -/
def descWork (nodes : List TaxNodeE) (root forCombine : Bool) :
    Nat → Nat ⊕ List Nat → Except String LinList
  | 0, _ => throw "fuel exhausted (RecursionError)"
  | fuel + 1, Sum.inl tax =>
    match lookupNode nodes tax with
    | none => throw "KeyError: taxonomy node"
    | some nd => do
      let rest ← descWork nodes root forCombine fuel (Sum.inr nd.children)
      pure (PyTree.int tax :: rest)
  | _ + 1, Sum.inr [] => pure []
  | fuel + 1, Sum.inr (child :: more) => do
    let head ←
      if !forCombine && hasNode nodes child then do
        let sub ← descWork nodes root forCombine fuel (Sum.inl child)
        pure [PyTree.list sub]
      else if root then
        pure [PyTree.str (LEAF_LINK ++ Nat.repr child)]
      else
        pure ([] : LinList)
    let tail ← descWork nodes root forCombine fuel (Sum.inr more)
    pure (head ++ tail)

/-- The `ancestors` loop of `FamDBLeaf.get_lineage`: walk `Parent` links
upward, wrapping the tree; a parent id absent locally becomes a
`root_link` marker carrying the current node's id and stops the walk.
(`while tax_id:` also stops on the Python-falsy id 0.) -/
def ancWork (nodes : List TaxNodeE) : Nat → Nat → LinList → Except String LinList
  | 0, _, _ => throw "fuel exhausted (ancestors loop)"
  | fuel + 1, tax, tree =>
    if tax = 0 then pure tree
    else
      match lookupNode nodes tax with
      | none => throw "KeyError: taxonomy node (ancestors)"
      | some nd =>
        match nd.parent with
        | none => pure tree
        | some p =>
          if hasNode nodes p then
            ancWork nodes fuel p [PyTree.int p, PyTree.list tree]
          else
            pure [PyTree.str (ROOT_LINK ++ Nat.repr tax), PyTree.list tree]

/-- `FamDBLeaf.get_lineage(tax_id, ancestors=…, descendants=…,
for_combine=…)`. -/
def getLineage (f : LeafFile) (tax : Nat) (ancestors descendants forCombine : Bool)
    (fuel : Nat) : Except String Lineage := do
  let tree ←
    if descendants then descWork f.nodes f.root forCombine fuel (Sum.inl tax)
    else pure [PyTree.int tax]
  let tree ←
    if ancestors then ancWork f.nodes fuel tax tree
    else pure tree
  mkLineage tree f.root f.partitionNum

/-- `FamDBRoot.parent_of(tax_id)`: scan every node of the root file for
one whose `Children` list contains the id. -/
def parentOf (f : LeafFile) (tax : Nat) : Option Nat :=
  (f.nodes.find? (fun nd => nd.children.contains tax)).map (·.id)

/-! ## famdb_classes.py: FamDB (the multi-partition coordinator) -/

/-- `[(name_class, name_text), …]` for one taxon. -/
abbrev TaxNames := List (String × String)

/-- `FamDBRoot.names_dump`: partition number → taxon id → names. -/
abbrev NamesDump := List (Nat × List (Nat × TaxNames))

structure FamDBState where
  /-- the open partition files, keyed by partition number, in the
  insertion order of `self.files` -/
  files : List (Nat × LeafFile)
  /-- the root partition's names dump (`self.files[0].names_dump`) -/
  namesDump : NamesDump

def lookupFile (st : FamDBState) (p : Nat) : Option LeafFile :=
  (st.files.find? (fun pr => pr.1 = p)).map (·.2)

/-- `FamDBRoot.find_taxon(tax_id)`: the first partition of the names
dump whose key set contains the id. -/
def findTaxon (st : FamDBState) (tax : Nat) : Option Nat :=
  (st.namesDump.find? (fun pr => pr.2.any (fun e => e.1 = tax))).map (·.1)

/-- `find_taxon` as called with a string id (the keys of
`links[LEAF_LINK]` are the marker texts). -/
def findTaxonStr (st : FamDBState) (s : String) : Option Nat :=
  (st.namesDump.find? (fun pr => pr.2.any (fun e => Nat.repr e.1 = s))).map (·.1)

/-- `int(...)` on a marker id text (always decimal digits, produced by
formatting a taxon id). -/
def natOfDigits (s : String) : Nat :=
  s.data.foldl (fun acc c => acc * 10 + (c.toNat - '0'.toNat)) 0

/-- One step of the `for taxa in base_lineage.links[LEAF_LINK].values()`
loop of `get_lineage_combined`: accumulates the lineages to splice and
the `missing` map.  `if loc and loc in self.files` — note that partition
number 0 is Python-falsy, so a leaf link owned by partition 0 is skipped
by both branches. -/
def leafLinkStep (st : FamDBState) (fuel : Nat)
    (acc : List Lineage × List (String × Nat)) (taxaS : String) :
    Except String (List Lineage × List (String × Nat)) := do
  match findTaxonStr st taxaS with
  | none => pure acc
  | some loc =>
    if loc = 0 then pure acc
    else
      match lookupFile st loc with
      | some lf => do
        let lin ← getLineage lf (natOfDigits taxaS) true true false fuel
        pure (acc.1 ++ [lin], acc.2)
      | none => do
        let lin ← mkLineage
          [PyTree.str (ROOT_LINK ++ taxaS), PyTree.list [PyTree.int (natOfDigits taxaS)]]
          false loc
        pure (acc.1 ++ [lin], acc.2 ++ [(taxaS, loc)])

/-- `FamDB.get_lineage_combined(tax_id, ancestors=…, descendants=…,
remove_links=…)`.  Returns `ok none` for the printed "Taxon Not Found In
Dfam" and missing-partition-file outcomes, which the source signals by
returning `None`. -/
def getLineageCombined (st : FamDBState) (tax : Nat)
    (ancestors descendants removeLinksKw : Bool) (fuel : Nat) :
    Except String (Option Lineage) := do
  match findTaxon st tax with
  | none => pure none
  | some location =>
    match lookupFile st location with
    | none => pure none
    | some ownerFile => do
      let base ← getLineage ownerFile tax ancestors descendants false fuel
      let base ←
        if base.descendants then do
          let (addLineages, missing) ← base.leafLinks.foldlM (leafLinkStep st fuel) ([], [])
          let combined ← addLineages.foldlM lineageAdd base
          pure { combined with missing := missing }
        else pure base
      let base ←
        if base.ancestors then do
          match lookupFile st 0 with
          | none => throw "KeyError: self.files[0]"
          | some rootF =>
            match base.rootLinks with
            | none => throw "TypeError: NoneType object has no attribute keys"
            | some (anchor, _) =>
              match parentOf rootF (natOfDigits anchor) with
              | none => throw "KeyError: get_lineage(None)"
              | some ancestorNode => do
                let rootLineage ← getLineage rootF ancestorNode true true true fuel
                lineageAdd base rootLineage
        else pure base
      let base :=
        if removeLinksKw || base.descendants then
          { base with tree := removeLinksL base.tree }
        else base
      pure (some base)

/-! ## famdb_classes.py: FamDBLeaf.add_family -/

/-- `FamDBLeaf.__check_unique(family)`: the accession, or the accession
with a trailing `v`, must exist neither as a family dataset (each is
stored at its own `accession_bin` path, so dataset existence at
`accession_bin(x)/x` is exactly membership of `x` among the stored
accessions) nor as a `Lookup/ByName` key. -/
def checkUnique (f : LeafFile) (fam : FamilyR) : Bool :=
  if (f.records.map Prod.fst).contains fam.accession
      || (f.records.map Prod.fst).contains (fam.accession ++ "v") then false
  else if f.names.contains fam.accession || f.names.contains (fam.accession ++ "v") then false
  else true

/-- The duplicate message raised by `add_family`. -/
def dupMsg (fam : FamilyR) : String :=
  "Family is not unique! Already seen " ++ fam.accession ++
    (match fam.name with
     | some n => if n ≠ "" then " (" ++ n ++ ")" else " "
     | none => " ")

/-- `add_stage_link(stage, accession)`: create the stage group on demand
and add a soft link unless the accession is already present. -/
def addStageLink (byStage : List (String × List String)) (stage acc : String) :
    List (String × List String) :=
  match byStage.find? (fun pr => pr.1 = stage) with
  | some grp =>
    if grp.2.contains acc then byStage
    else byStage.map fun pr => if pr.1 = stage then (pr.1, pr.2 ++ [acc]) else pr
  | none => byStage ++ [(stage, [acc])]

/-- The stage names linked for a family: every entry of
`search_stages.split(",")` stripped, and every entry of
`buffer_stages.split(",")` cut at `[` and stripped. -/
def familyStageNames (fam : FamilyR) : List String :=
  (match fam.search_stages with
   | some ss => if ss ≠ "" then (splitCommaL ss.data).map (fun p => stripWs (String.mk p)) else []
   | none => []) ++
  (match fam.buffer_stages with
   | some bs =>
     if bs ≠ "" then (splitCommaL bs.data).map (fun p => stripWs (String.mk (upToBracket p)))
     else []
   | none => [])

/-- `Taxonomy/Nodes/<clade>/Families[accession] = link`, for one clade
(only when the clade's node exists in this file). -/
def addNodeFamLink (nf : List (Nat × List String)) (clade : Nat) (acc : String) :
    List (Nat × List String) :=
  match nf.find? (fun pr => pr.1 = clade) with
  | some _ => nf.map fun pr => if pr.1 = clade then (pr.1, pr.2 ++ [acc]) else pr
  | none => nf ++ [(clade, [acc])]

/-- `FamDBLeaf.add_family(family)`.  The uniqueness check raises before
any state is touched, so on the duplicate outcome the file (and in
particular its consensus/hmm counters) is returned unchanged next to the
error message. -/
def addFamily (f : LeafFile) (fam : FamilyR) : LeafFile × Option String :=
  if !checkUnique f fam then (f, some (dupMsg fam))
  else
    let f := { f with
      countConsensus := f.countConsensus + (if pyTruthyS fam.consensus then 1 else 0),
      countHmm := f.countHmm + (if pyTruthyS fam.model then 1 else 0),
      records := f.records ++ [(fam.accession, fam)],
      names := (match fam.name with
        | some n => if n ≠ "" then f.names ++ [n] else f.names
        | none => f.names),
      nodeFamilies := fam.clades.foldl
        (fun nf clade =>
          if hasNode f.nodes clade then addNodeFamLink nf clade fam.accession else nf)
        f.nodeFamilies }
    let f := { f with
      byStage := (familyStageNames fam).foldl
        (fun bs stage => addStageLink bs stage fam.accession) f.byStage }
    (f, none)

/-! ## famdb_helper_methods.py: soundex / sanitize_name -/

/-- The `SOUNDEX_LOOKUP` table (`none` stands for the `None` codes of H
and W; letters outside the table are skipped). -/
def soundexLookup (c : Char) : Option (Option Nat) :=
  if c = 'A' || c = 'E' || c = 'I' || c = 'O' || c = 'U' || c = 'Y' then some (some 0)
  else if c = 'B' || c = 'F' || c = 'P' || c = 'V' then some (some 1)
  else if c = 'C' || c = 'G' || c = 'J' || c = 'K' || c = 'Q' || c = 'S' || c = 'X' || c = 'Z' then
    some (some 2)
  else if c = 'D' || c = 'T' then some (some 3)
  else if c = 'L' then some (some 4)
  else if c = 'M' || c = 'N' then some (some 5)
  else if c = 'R' then some (some 6)
  else if c = 'H' || c = 'W' then some none
  else none

/-- The deletion loop of `soundex`: starting from the second code, drop
`None` (H/W) codes and codes equal to the surviving previous code. -/
def soundexDrop (prev : Option Nat) : List (Option Nat) → List (Option Nat)
  | [] => []
  | c :: cs =>
    if c = none then soundexDrop prev cs
    else if c = prev then soundexDrop prev cs
    else c :: soundexDrop c cs

/-- `soundex(word)`.  On the empty word the source would raise
`IndexError` at `word[0]`; famdb only feeds it non-empty names, and we
return `""` there. -/
def soundex (word : String) : String :=
  let codes := word.data.filterMap fun ch => soundexLookup ch.toUpper
  let codes :=
    match codes with
    | [] => []
    | h :: t => h :: soundexDrop h t
  match word.data with
  | [] => ""
  | w0 :: _ =>
    let digits := (codes.drop 1).filterMap fun c =>
      match c with
      | some n => if 0 < n then some n else none
      | none => none
    let coding := String.mk (w0 :: (digits.map fun n => Nat.repr n).foldl (· ++ ·.data) [])
    let padded := coding.data ++ List.replicate (4 - coding.data.length) '0'
    String.mk (padded.take 4)

/-- `sounds_like(first, second)`. -/
def soundsLike (a b : String) : Bool := soundex a = soundex b

/-- First substitution of `sanitize_name`: each maximal run of
whitespace, comma or underscore becomes a single `_`. -/
def sanitizeRuns (inRun : Bool) : List Char → List Char
  | [] => []
  | c :: cs =>
    if isPyWs c || c = ',' || c = '_' then
      (if inRun then [] else ['_']) ++ sanitizeRuns true cs
    else c :: sanitizeRuns false cs

/-- `sanitize_name(name)`: collapse `[\s,_]+` runs to `_`, then delete
every `(`, `)`, `<`, `>` and apostrophe. -/
def sanitizeName (name : String) : String :=
  String.mk ((sanitizeRuns false name.data).filter fun c =>
    !(c = '(' || c = ')' || c = '<' || c = '>' || c = '\x27'))

/-! ## famdb_classes.py: FamDBRoot name search -/

/-- The `kind is None or kind == name_cls` gate. -/
def nameKindOk (kind : Option String) (cls : String) : Bool :=
  kind.isNone || kind = some cls

/-- One name matches *exactly* (the first three arms of the match chain
in `search_taxon_names`): equal after lowercasing, or the lowercased
name starts with the query followed by `" <"`, or the query equals the
sanitized lowercased name. -/
def exactNameMatch (text : String) (kind : Option String) (cls nameTxt : String) : Bool :=
  nameKindOk kind cls &&
    (let nt := strLower nameTxt
     text = nt || startsWithS nt (text ++ " <") || text = sanitizeName nt)

/-- One name matches at all: exactly, or by substring, or (when
`search_similar`) phonetically. -/
def anyNameMatch (text : String) (kind : Option String) (similar : Bool)
    (cls nameTxt : String) : Bool :=
  nameKindOk kind cls &&
    (let nt := strLower nameTxt
     text = nt || startsWithS nt (text ++ " <") || text = sanitizeName nt
       || hasSubS nt text || (similar && soundsLike text nt))

/-- `FamDBRoot.search_taxon_names(text, kind, search_similar)`: for every
partition in dump order and every taxon in that partition's order, yield
`(id, exact, partition)` when any name matches; the node is exact when
any of its names matched exactly. -/
def searchTaxonNames (nd : NamesDump) (text0 : String) (kind : Option String)
    (similar : Bool) : List (Nat × Bool × Nat) :=
  nd.flatMap fun pr =>
    pr.2.filterMap fun e =>
      if e.2.any fun nm => anyNameMatch (strLower text0) kind similar nm.1 nm.2 then
        some (e.1, (e.2.any fun nm => exactNameMatch (strLower text0) kind nm.1 nm.2), pr.1)
      else none

/-- The integer branch of `resolve_species`: the first partition whose
names dump holds the id resolves it directly. -/
def resolveSpeciesInt (nd : NamesDump) (n : Int) : List (Nat × Nat × Bool) :=
  match nd.find? (fun pr => pr.2.any fun e => (e.1 : Int) = n) with
  | some pr => [(n.toNat, pr.1, true)]
  | none => []

/-- The text branch of `resolve_species`: search hits split into exact
and inexact, recombined exact-first. -/
def resolveSpeciesText (nd : NamesDump) (term : String) (kind : Option String)
    (similar : Bool) : List (Nat × Nat × Bool) :=
  (((searchTaxonNames nd term kind similar).filter fun h => h.2.1).map
      fun h => (h.1, h.2.2, true)) ++
  (((searchTaxonNames nd term kind similar).filter fun h => !h.2.1).map
      fun h => (h.1, h.2.2, false))

/-- `FamDBRoot.resolve_species(term, kind, search_similar)`, returning
the `[tax_id, partition, is_exact]` triples.  An integer term resolves
directly against the first partition holding it.  Text terms are split
into exact and inexact hits, exact first.  (When zero results are found
and `search_similar` is not yet set, the source retries with it enabled
purely to print near-miss names to stderr — the empty `results` list is
returned regardless, so the retry does not affect the value.) -/
def resolveSpecies (nd : NamesDump) (term : String) (kind : Option String)
    (similar : Bool) : List (Nat × Nat × Bool) :=
  match pyInt term with
  | some n => resolveSpeciesInt nd n
  | none => resolveSpeciesText nd term kind similar

/-- The three shapes `FamDBRoot.resolve_one_species` can return:
`exact_matches[0]` / `results[0][:2]`, the `("Ambiguous", "Ambiguous")`
sentinel pair, or the `(None, None)` pair. -/
inductive ROSResult where
  | found (tax : Nat) (partition : Nat)
  | ambiguousSentinel
  | noneSentinel
deriving DecidableEq

/-- The decision chain of `resolve_one_species` on
(`exact_matches`, `results`): `len(exact_matches) == 1` wins, then
`len(results) == 1`, then `> 1` is the ambiguous sentinel, else the
none sentinel. -/
def resolveOneOutcome : List (Nat × Nat × Bool) → List (Nat × Nat × Bool) → ROSResult
  | [e], _ => ROSResult.found e.1 e.2.1
  | _, [r] => ROSResult.found r.1 r.2.1
  | _, [] => ROSResult.noneSentinel
  | _, _ => ROSResult.ambiguousSentinel

/-- `FamDBRoot.resolve_one_species(term, kind)`: a single exact match
wins; otherwise a single result of any kind; more than one result is the
ambiguous sentinel (the candidate details only go to stderr); zero
results is the none sentinel. -/
def resolveOneSpecies (nd : NamesDump) (term : String) (kind : Option String) : ROSResult :=
  resolveOneOutcome
    ((resolveSpecies nd term kind false).filter fun r => r.2.2)
    (resolveSpecies nd term kind false)

/-! ## famdb_helper_methods.py: the filter predicates -/

/-- `filter_curated(accession, curated)`: a family is uncurated exactly
when its accession is `DR` followed by nine digits. -/
def filterCurated (accession : String) (curated : Bool) : Bool :=
  let isCurated := !(startsWithS accession "DR" && accession.length = 11
      && (accession.data.drop 2).all Char.isDigit)
  isCurated = curated

/-- `filter_search_stages(family, stages)` (used only with `is_hmm`):
membership of a stripped `search_stages` entry in `stages`. -/
def filterSearchStages (fam : Option FamilyR) (stages : List String) : Bool :=
  match fam with
  | none => false
  | some fr =>
    match fr.search_stages with
    | some ss =>
      ss ≠ "" && (splitCommaL ss.data).any fun p => stages.contains (stripWs (String.mk p))
    | none => false

/-- `filter_repeat_type(family, rtype)`: the type (plus `/subtype` when
present), lowercased, starts with the requested text. -/
def filterRepeatType (fam : Option FamilyR) (rtype : String) : Bool :=
  match fam with
  | none => false
  | some fr =>
    match fr.repeat_type with
    | some rt =>
      if rt ≠ "" then
        let fullType :=
          match fr.repeat_subtype with
          | some sub => if sub ≠ "" then rt ++ "/" ++ sub else rt
          | none => rt
        startsWithS (strLower fullType) rtype
      else false
    | none => false

/-- `filter_name(family, name)`: the family's name, lowercased, starts
with the requested text. -/
def filterName (fam : Option FamilyR) (name : String) : Bool :=
  match fam with
  | none => false
  | some fr =>
    match fr.name with
    | some n => n ≠ "" && startsWithS (strLower n) name
    | none => false

/-! ## famdb_classes.py: FamDB.assemble_filters / get_accessions_filtered -/

/-- The keyword arguments of `get_accessions_filtered`.  `none` models an
absent keyword (`"tax_id" in kwargs` is `isSome`). -/
structure QueryKwargs where
  tax_id : Option Nat := none
  ancestors : Option Bool := none
  descendants : Option Bool := none
  curated_only : Bool := false
  uncurated_only : Bool := false
  stage : Option Int := none
  is_hmm : Bool := false
  repeat_type : Option String := none
  name : Option String := none

/-- The closures `assemble_filters` appends, as data.  `stageF` captures
`self.filter_stages(a, stages)`, `searchStageF` captures
`filter_search_stages(f(), stages)`, and so on. -/
inductive FilterTag where
  | curatedF (curated : Bool)
  | stageF (stages : List String)
  | searchStageF (stages : List String)
  | repeatF (rtype : String)
  | nameF (name : String)

/-- The stage list used for the Python "stage 95" shorthand. -/
def stages95 : List String := ["35", "50", "55", "60", "65", "70", "75"]

/-- The curated/uncurated filters appended first by `assemble_filters`. -/
def curatedFilterPart (cur unc : Bool) : List FilterTag :=
  (if cur then [FilterTag.curatedF true] else []) ++
  (if unc then [FilterTag.curatedF false] else [])

/-- The stage filter and the captured `stages` list: `if filter_stage:`
is Python truthiness, so both a missing stage and stage `0` skip the
stage filter, as does the "all stages" value 80; stage 95 expands to
`stages95`. -/
def stageFilterPart : Option Int → List FilterTag × List String
  | none => ([], [])
  | some s =>
    if s = 0 then ([], [])
    else if s = 80 then ([], [])
    else if s = 95 then ([FilterTag.stageF stages95], stages95)
    else ([FilterTag.stageF [toString s]], [toString s])

/-- The extra search-stage filter appended when `is_hmm` and a stage
filter is active. -/
def hmmFilterPart (isHmm : Bool) (stages : List String) : List FilterTag :=
  if isHmm && stages ≠ [] then [FilterTag.searchStageF stages] else []

/-- The repeat-type / name filter: appended (lowercased) when the value
is truthy; the returned value is lowercased only in that case. -/
def textFilterPart (tag : String → FilterTag) : Option String → List FilterTag × Option String
  | some r =>
    if r ≠ "" then ([tag (strLower r)], some (strLower r)) else ([], some r)
  | none => ([], none)

/-- `FamDB.assemble_filters(**kwargs)`: the ANDed filter list (in the
source's append order: curated, stage, hmm search-stage, repeat type,
name), the captured `stages` list, and the (lowercased when truthy)
`repeat_type` and `name` values. -/
def assembleFilters (kw : QueryKwargs) :
    List FilterTag × List String × Option String × Option String :=
  let sp := stageFilterPart kw.stage
  let rp := textFilterPart FilterTag.repeatF kw.repeat_type
  let np := textFilterPart FilterTag.nameF kw.name
  (curatedFilterPart kw.curated_only kw.uncurated_only ++ sp.1
     ++ hmmFilterPart kw.is_hmm sp.2 ++ rp.1 ++ np.1,
   sp.2, rp.2, np.2)

/-- `FamDB.filter_stages(accession, stages)`: the first open file whose
family lookup finds the accession decides; when no file has it the
Python function falls through and returns `None` (falsy). -/
def famdbFilterStages (st : FamDBState) (acc : String) (stages : List String) : Option Bool :=
  (st.files.find? fun pr => (getFamilyByAccession pr.2 acc).isSome).map
    fun pr => leafFilterStages pr.2 acc stages

/-- The `family_getter` closure in `get_accessions_filtered`: every open
file is scanned (no break), a found entry overwrites the cache, so the
last file holding the accession wins. -/
def familyGetter (st : FamDBState) (acc : String) : Option FamilyR :=
  st.files.foldl
    (fun cached pr =>
      match getFamilyByAccession pr.2 acc with
      | some fr => some fr
      | none => cached)
    none

/-- Evaluating one assembled filter on an accession (the Python closures
applied to `(accession, family_getter)`; a falsy `None` from
`FamDB.filter_stages` fails the filter). -/
def evalFilter (st : FamDBState) (acc : String) : FilterTag → Bool
  | FilterTag.curatedF c => filterCurated acc c
  | FilterTag.stageF stages => (famdbFilterStages st acc stages).getD false
  | FilterTag.searchStageF stages => filterSearchStages (familyGetter st acc) stages
  | FilterTag.repeatF r => filterRepeatType (familyGetter st acc) r
  | FilterTag.nameF n => filterName (familyGetter st acc) n

/-- The whole assembled chain (the source evaluates every filter and
ANDs the outcomes). -/
def evalFilters (st : FamDBState) (filters : List FilterTag) (acc : String) : Bool :=
  filters.all (evalFilter st acc)

/-- The keys of one `Lookup/ByStage/<stage>` group. -/
def byStageKeys (f : LeafFile) (stage : String) : List String :=
  match f.byStage.find? (fun pr => pr.1 = stage) with
  | some grp => grp.2
  | none => []

/-- `FamDB.get_families_for_taxon(node, location)` as used by the tree
walk: nothing when the location is unknown or its file is not open,
otherwise the node's accession links in that file. -/
def famsVia (st : FamDBState) (tax : Nat) : List String :=
  match findTaxon st tax with
  | none => []
  | some p =>
    match lookupFile st p with
    | none => []
    | some f => getFamiliesForTaxonL f tax

/-- The third query plan of `iterate_accs` (the general tree walk):
compute the combined lineage, flatten it, and collect each visited
node's directly-associated accessions.  A `None` lineage (unknown taxon
or missing file) contributes nothing. -/
def planCSource (st : FamDBState) (tax : Nat) (ancestors descendants : Bool)
    (fuel : Nat) : Except String (List String) :=
  match getLineageCombined st tax ancestors descendants false fuel with
  | Except.error e => Except.error e
  | Except.ok none => Except.ok []
  | Except.ok (some lin) =>
    match walkTreeL lin.tree with
    | Except.error e => Except.error e
    | Except.ok nodes => Except.ok (nodes.flatMap fun t => famsVia st t)

/-- `iterate_accs`: the stage-index shortcut for whole-database
stage-only searches, the direct `Families/` scan for whole-database
searches, and the tree walk otherwise. -/
def iterateAccs (st : FamDBState) (tax : Nat) (ancestors descendants : Bool)
    (stages : List String) (repeatType nameV : Option String) (fuel : Nat) :
    Except String (List String) :=
  if tax = 1 && descendants && stages ≠ [] && !pyTruthyS repeatType && !pyTruthyS nameV then
    pure (stages.flatMap fun stage => st.files.flatMap fun pr => byStageKeys pr.2 stage)
  else if tax = 1 && descendants then
    pure (st.files.flatMap fun pr => pr.2.records.map Prod.fst)
  else
    planCSource st tax ancestors descendants fuel

/-- The de-duplicating filter loop of `get_accessions_filtered`: each
accession is added to `seen` on first sight (before filtering), and
yielded exactly when every filter passes. -/
def dedupFilterGo (st : FamDBState) (filters : List FilterTag) :
    List String → List String → List String
  | _, [] => []
  | seen, a :: rest =>
    if seen.contains a then dedupFilterGo st filters seen rest
    else if evalFilters st filters a then a :: dedupFilterGo st filters (a :: seen) rest
    else dedupFilterGo st filters (a :: seen) rest

/-- The `tax_id/ancestors/descendants` defaulting at the top of
`get_accessions_filtered`: all three absent means the whole database
(`tax_id=1`, both directions); otherwise `tax_id` is read (KeyError when
absent) and the booleans default to `False`. -/
def resolveTargets (kw : QueryKwargs) : Except String (Nat × Bool × Bool) :=
  if kw.tax_id = none && kw.ancestors = none && kw.descendants = none then
    pure (1, true, true)
  else
    match kw.tax_id with
    | none => throw "KeyError: tax_id"
    | some t => pure (t, kw.ancestors.getD false, kw.descendants.getD false)

/-- `FamDB.get_accessions_filtered(**kwargs)`: the full pipeline as a
list of yielded accessions. -/
def getAccessionsFiltered (st : FamDBState) (kw : QueryKwargs) (fuel : Nat) :
    Except String (List String) :=
  match resolveTargets kw with
  | Except.error e => Except.error e
  | Except.ok tad =>
    match iterateAccs st tad.1 tad.2.1 tad.2.2 (assembleFilters kw).2.1
        (assembleFilters kw).2.2.1 (assembleFilters kw).2.2.2 fuel with
    | Except.error e => Except.error e
    | Except.ok accs => Except.ok (dedupFilterGo st (assembleFilters kw).1 [] accs)

/-- The tree-walk plan run with an explicitly supplied filter chain (the
"slower plan with an equivalent stage predicate" of the spec's plan
equivalence scenario). -/
def planCWalk (st : FamDBState) (filters : List FilterTag) (fuel : Nat) :
    Except String (List String) :=
  match planCSource st 1 false true fuel with
  | Except.error e => Except.error e
  | Except.ok accs => Except.ok (dedupFilterGo st filters [] accs)

/-- The taxa visited by the whole-database descendant expansion
(`get_lineage_combined(1, descendants=True)` flattened), or `[]` when
that computation does not return a lineage. -/
def visitedTaxa (st : FamDBState) (fuel : Nat) : List Nat :=
  match getLineageCombined st 1 false true false fuel with
  | Except.ok (some lin) =>
    match walkTreeL lin.tree with
    | Except.ok nodes => nodes
    | Except.error _ => []
  | _ => []

/-- The captured stage lists of the stage filters in an assembled filter
chain (used to state which stage predicate, if any, a call applies). -/
def stageArgs (filters : List FilterTag) : List (List String) :=
  filters.filterMap fun t =>
    match t with
    | FilterTag.stageF ss => some ss
    | _ => none

/-- Well-formedness of the root partition's names dump, as guaranteed by
`write_taxa_names` (partition keys are distinct HDF5 group names, taxon
keys are distinct JSON keys, and the taxonomy dump assigns every taxon
to exactly one partition). -/
def namesDumpWF (nd : NamesDump) : Prop :=
  (nd.map Prod.fst).Nodup ∧
  (∀ pr ∈ nd, (pr.2.map Prod.fst).Nodup) ∧
  (∀ pr1 ∈ nd, ∀ pr2 ∈ nd, pr1.1 ≠ pr2.1 →
    ∀ e1 ∈ pr1.2, ∀ e2 ∈ pr2.2, e1.1 ≠ e2.1)

/-! ## Concrete instances used by the claim theorems -/

/-- A one-entry name record, enough for `find_taxon`. -/
def oneName : TaxNames := [("scientific name", "x")]

/-- Scenario C1, partition 0: taxa 1 (root) and 9604 (child 9606 absent
locally). -/
def c1Root : LeafFile :=
  { root := true, partitionNum := 0,
    nodes := [⟨1, none, [9604]⟩, ⟨9604, some 1, [9606]⟩] }

/-- Scenario C1, partition 3: taxon 9606 whose parent 9604 is absent
locally. -/
def c1Leaf : LeafFile :=
  { root := false, partitionNum := 3,
    nodes := [⟨9606, some 9604, []⟩] }

/-- Scenario C1: both partitions open, names dump placing 1 and 9604 in
partition 0 and 9606 in partition 3. -/
def c1State : FamDBState :=
  { files := [(0, c1Root), (3, c1Leaf)],
    namesDump := [(0, [(1, oneName), (9604, oneName)]), (3, [(9606, oneName)])] }

/-- The tree `[1, [9604, [9606]]]` that C1 expects. -/
def c1Expected : LinList :=
  [PyTree.int 1, PyTree.list [PyTree.int 9604, PyTree.list [PyTree.int 9606]]]

/-- A root-owned lineage with an unresolved leaf link (as produced by
`get_lineage` on the root partition), used by C6. -/
def w6RootTree : LinList :=
  [PyTree.int 1, PyTree.list [PyTree.int 9604, PyTree.str "leaf_link:9606"]]

def w6Root : Lineage :=
  { tree := w6RootTree, ancestors := false, descendants := true, root := true,
    partition := 0, leafLinks := ["9606"], rootLinks := none, missing := [] }

/-- A non-root lineage with a root link anchored at 9606, used by C6. -/
def w6LeafTree : LinList :=
  [PyTree.str "root_link:9606", PyTree.list [PyTree.int 9606]]

def w6Leaf : Lineage :=
  { tree := w6LeafTree, ancestors := true, descendants := false, root := false,
    partition := 3, leafLinks := [], rootLinks := some ("9606", [PyTree.int 9606]),
    missing := [] }

/-- The successful splice of `w6Leaf + w6Root`. -/
def w6Combined : Lineage :=
  { tree := c1Expected, ancestors := false, descendants := false, root := true,
    partition := 0, leafLinks := [], rootLinks := none, missing := [] }

/-- A marker-free non-root lineage (e.g. `get_lineage(9606)` with
neither direction requested), used by the C6 counterexample: adding it
to a root lineage that still carries leaf links crashes in
`None.get(...)` although the ownerships differ. -/
def c6Plain : Lineage :=
  { tree := [PyTree.int 9606], ancestors := false, descendants := false, root := false,
    partition := 3, leafLinks := [], rootLinks := none, missing := [] }

/-- The C7 failing input: a tree carrying a leaf-link marker *and* a
root-link marker. -/
def c7Tree : LinList :=
  [PyTree.str "leaf_link:5",
   PyTree.list [PyTree.str "root_link:7", PyTree.list [PyTree.int 7]]]

/-- What `Lineage.__init__` produces on `c7Tree` with `root=True`: the
value is accepted, the root marker is silently ignored. -/
def c7Accepted : Lineage :=
  { tree := c7Tree, ancestors := false, descendants := true, root := true,
    partition := 0, leafLinks := ["5"], rootLinks := none, missing := [] }

/-- C8 counterexample state A: two taxa match `"x"` inexactly. -/
def amb8A : NamesDump :=
  [(0, [(2, [("scientific name", "xa")]), (3, [("scientific name", "xb")])])]

/-- C8 counterexample state B: three different taxa match `"x"`
inexactly. -/
def amb8B : NamesDump :=
  [(0, [(4, [("scientific name", "xc")]), (5, [("scientific name", "xd")]),
        (6, [("scientific name", "xe")])])]

/-- C9 witness dump. -/
def w9Dump : NamesDump :=
  [(0, [(1, [("scientific name", "root")])]),
   (3, [(9606, [("scientific name", "Homo sapiens")])])]

/-- C5 witness file and family. -/
def w5File : LeafFile :=
  { root := true, partitionNum := 0, nodes := [⟨1, none, []⟩] }

def w5Fam : FamilyR :=
  { accession := "TST1", consensus := some "acgt", search_stages := some "35" }

/-- C3/C10 witness / counterexample state: one root partition owning
taxon 1 with one family `a1` linked to it and indexed under stage 35. -/
def w3File : LeafFile :=
  { root := true, partitionNum := 0,
    nodes := [⟨1, none, []⟩],
    records := [("a1", { accession := "a1", search_stages := some "35" })],
    byStage := [("35", ["a1"])],
    nodeFamilies := [(1, ["a1"])] }

def w3State : FamDBState :=
  { files := [(0, w3File)],
    namesDump := [(0, [(1, [("scientific name", "root")])])] }

/-- `get_accessions_filtered(tax_id=1, descendants=True, stage=35)`. -/
def kw35 : QueryKwargs :=
  { tax_id := some 1, descendants := some true, stage := some 35 }

/-- `get_accessions_filtered(tax_id=1, descendants=True, stage=0)`:
the C10 counterexample call. -/
def kw0 : QueryKwargs :=
  { tax_id := some 1, descendants := some true, stage := some 0 }

/-! # Theorems -/

set_option maxRecDepth 100000

/-- C1: in a database where partition 0's taxonomy holds node 1
(no parent, child 9604) and node 9604 (child 9606), and open partition 3
holds node 9606 whose parent 9604 is absent locally,
`get_lineage_combined(9606, ancestors=True)` returns the nested tree
`[1, [9604, [9606]]]`, root-owned, with no residual boundary-marker
string anywhere in the result. -/
theorem C1_lineage_stitch :
    getLineageCombined c1State 9606 true false false 30 =
      Except.ok (some { tree := c1Expected, ancestors := false, descendants := false,
                        root := true, partition := 0, leafLinks := [], rootLinks := none,
                        missing := [] }) ∧
    collectStrsL c1Expected = [] :=
  ⟨rfl, rfl⟩

/-- C7 (the code at the failing input): `Lineage.__init__` *accepts* a
root-owned tree that carries both a leaf-link marker and a root-link
marker.  Because the root-link branch is an `elif`, the `ancestors` flag
is never set together with `descendants`, so the guard that should raise
"Lineage Should Not Contain Root Links And Leaf Links" is unreachable,
and the root-owned value retains a root-link marker — contradicting the
claimed constructor invariant. -/
theorem C7_both_markers_accepted :
    mkLineage c7Tree true 0 = Except.ok c7Accepted ∧
    (collectStrsL c7Tree).any (fun s => hasSubS s LEAF_LINK) = true ∧
    (collectStrsL c7Tree).any (fun s => hasSubS s ROOT_LINK) = true ∧
    c7Accepted.root = true :=
  ⟨rfl, rfl, rfl, rfl⟩

/-- Inversion of a successful Dfam accession match. -/
theorem dfam_acc_match_some {l : List Char} {k a b c d e f : Char}
    (h : dfam_acc_match l = some (k, a, b, c, d, e, f)) :
    ∃ s, l = 'D' :: k :: a :: b :: c :: d :: e :: f :: s ∧
      (k = 'F' ∨ k = 'R') ∧ a.isDigit ∧ b.isDigit ∧ c.isDigit ∧ d.isDigit ∧
      e.isDigit ∧ f.isDigit ∧ 3 ≤ s.length ∧ s.length ≤ 6 ∧ s.all Char.isDigit := by
  rcases l with _ | ⟨c0, _ | ⟨k1, _ | ⟨a1, _ | ⟨b1, _ | ⟨c1, _ | ⟨d1, _ | ⟨e1, _ | ⟨f1, s⟩⟩⟩⟩⟩⟩⟩⟩
  all_goals try exact Option.noConfusion h
  simp only [dfam_acc_match] at h
  split_ifs at h with hg
  · simp only [Option.some.injEq, Prod.mk.injEq] at h
    obtain ⟨hk, ha, hb, hc, hd, he, hf⟩ := h
    subst hk; subst ha; subst hb; subst hc; subst hd; subst he; subst hf
    simp only [Bool.and_eq_true, Bool.or_eq_true, decide_eq_true_eq] at hg
    obtain ⟨⟨⟨⟨⟨⟨⟨⟨⟨⟨h0, hkFR⟩, hda⟩, hdb⟩, hdc⟩, hdd⟩, hde⟩, hdf⟩, h3⟩, h6⟩, hall⟩ := hg
    subst h0
    exact ⟨s, rfl, hkFR, hda, hdb, hdc, hdd, hde, hdf, h3, h6, hall⟩

/-- C2 (amended): `accession_bin` is total, and for every accession of
length ≥ 2 it computes `Families/<D[FR] kind>/<g1>/<g2>/<g3>` whenever
the accession decomposes as the kind, *three* 2-digit groups and a
3–6 digit numeric serial (the source pattern), and
`Families/Aux/<lowercased first two characters>` otherwise.  (The
original claim's pattern with only two groups and a two-component bucket
path is refuted by `C2_counterexample`.) -/
theorem C2_accession_bin (acc : String) (h2 : 2 ≤ acc.length) :
    (∀ k a b c d e f s, acc.data = 'D' :: k :: a :: b :: c :: d :: e :: f :: s →
        (k = 'F' ∨ k = 'R') → a.isDigit → b.isDigit → c.isDigit → d.isDigit →
        e.isDigit → f.isDigit → 3 ≤ s.length → s.length ≤ 6 → s.all Char.isDigit →
        accession_bin acc = GROUP_FAMILIES ++ "/" ++ String.mk ['D', k] ++ "/"
          ++ String.mk [a, b] ++ "/" ++ String.mk [c, d] ++ "/" ++ String.mk [e, f]) ∧
    ((¬ ∃ k a b c d e f s, acc.data = 'D' :: k :: a :: b :: c :: d :: e :: f :: s ∧
        (k = 'F' ∨ k = 'R') ∧ a.isDigit ∧ b.isDigit ∧ c.isDigit ∧ d.isDigit ∧
        e.isDigit ∧ f.isDigit ∧ 3 ≤ s.length ∧ s.length ≤ 6 ∧ s.all Char.isDigit) →
      accession_bin acc = GROUP_FAMILIES ++ "/Aux/"
        ++ String.mk ((acc.data.take 2).map Char.toLower)) := by
  constructor
  · intro k a b c d e f s hshape hkFR ha hb hc hd he hf h3 h6 hall
    have hm : dfam_acc_match acc.data = some (k, a, b, c, d, e, f) := by
      rw [hshape]
      simp only [dfam_acc_match, ha, hb, hc, hd, he, hf, hall, Bool.and_eq_true,
        Bool.or_eq_true, decide_eq_true_eq]
      have hle : decide (3 ≤ s.length) = true := decide_eq_true h3
      have hge : decide (s.length ≤ 6) = true := decide_eq_true h6
      rcases hkFR with h | h <;> simp [h, hle, hge, ha, hb, hc, hd, he, hf, hall] <;>
        try exact ⟨h3, h6⟩
    rw [accession_bin, hm]
  · intro hne
    cases hm : dfam_acc_match acc.data with
    | some v =>
      exfalso
      obtain ⟨k, a, b, c, d, e, f⟩ := v
      obtain ⟨s, hs, hrest⟩ := dfam_acc_match_some hm
      exact hne ⟨k, a, b, c, d, e, f, s, hs, hrest⟩
    | none => rw [accession_bin, hm]

/-- C2 (counterexample): `"DF001234567"` matches the claim's canonical
pattern (2-letter kind, two 2-digit groups, 5-digit serial), yet the
computed bucket path is not the claimed two-component
`Families/DF/00/12` — the source pattern has three 2-digit groups and
the path keeps all three. -/
theorem C2_counterexample :
    claimCanonicalPat "DF001234567" = true ∧
    accession_bin "DF001234567" ≠ "Families/DF/00/12" := by
  refine ⟨by decide, by decide⟩

/-- C2 witness: the amended theorem applied to a canonical and a
non-canonical accession. -/
theorem C2_witness :
    2 ≤ ("DF001234567" : String).length ∧
    accession_bin "DF001234567" =
      GROUP_FAMILIES ++ "/" ++ String.mk ['D', 'F'] ++ "/" ++ String.mk ['0', '0']
        ++ "/" ++ String.mk ['1', '2'] ++ "/" ++ String.mk ['3', '4'] ∧
    accession_bin "MIR3" =
      GROUP_FAMILIES ++ "/Aux/" ++ String.mk ((("MIR3" : String).data.take 2).map Char.toLower) := by
  refine ⟨by decide, ?_, ?_⟩
  · exact (C2_accession_bin "DF001234567" (by decide)).1 'F' '0' '0' '1' '2' '3' '4'
      ['5', '6', '7'] rfl (Or.inl rfl) (by decide) (by decide) (by decide) (by decide)
      (by decide) (by decide) (by decide) (by decide) (by decide)
  · refine (C2_accession_bin "MIR3" (by decide)).2 ?_
    rintro ⟨k, a, b, c, d, e, f, s, hs, -⟩
    have hdata : ("MIR3" : String).data = ['M', 'I', 'R', '3'] := rfl
    rw [hdata] at hs
    simp at hs

/-- C5: whenever the accession of a family, or that accession with a
trailing `v`, already exists in the partition as a primary record or as
a `Lookup/ByName` alias, `add_family` fails with the duplicate-family
error and leaves the stored consensus and hmm counts unchanged; in
particular a second insertion of the same accession always fails this
way. -/
theorem addFamily_of_not_unique {f : LeafFile} {g : FamilyR}
    (h : checkUnique f g = false) : addFamily f g = (f, some (dupMsg g)) := by
  simp [addFamily, h]

theorem addFamily_records {f : LeafFile} {fam : FamilyR}
    (h : checkUnique f fam = true) :
    (addFamily f fam).1.records = f.records ++ [(fam.accession, fam)] := by
  simp [addFamily, h]

theorem C5_duplicate_family (f : LeafFile) (fam : FamilyR) :
    (((f.records.map Prod.fst).contains fam.accession ∨
        (f.records.map Prod.fst).contains (fam.accession ++ "v") ∨
        f.names.contains fam.accession ∨ f.names.contains (fam.accession ++ "v")) →
      (addFamily f fam).2 = some (dupMsg fam) ∧
      (addFamily f fam).1.countConsensus = f.countConsensus ∧
      (addFamily f fam).1.countHmm = f.countHmm) ∧
    (∀ g : FamilyR, (addFamily f fam).2 = none → g.accession = fam.accession →
      (addFamily (addFamily f fam).1 g).2 = some (dupMsg g)) := by
  constructor
  · intro hdup
    have hcu : checkUnique f fam = false := by
      rcases hdup with h | h | h | h <;> simp_all [checkUnique]
    rw [addFamily_of_not_unique hcu]
    exact ⟨rfl, rfl, rfl⟩
  · intro g hok hacc
    cases hcu : checkUnique f fam with
    | false =>
      rw [addFamily_of_not_unique hcu] at hok
      exact Option.noConfusion hok
    | true =>
      have hcu2 : checkUnique (addFamily f fam).1 g = false := by
        simp [checkUnique, addFamily_records hcu, hacc]
      rw [addFamily_of_not_unique hcu2]

/-- C5 witness: inserting `w5Fam` into the fresh `w5File` succeeds; the
immediate re-insertion of the same accession fails with the duplicate
error and all counts stay as they were. -/
theorem C5_witness :
    (addFamily w5File w5Fam).2 = none ∧
    (addFamily (addFamily w5File w5Fam).1 w5Fam).2 = some (dupMsg w5Fam) ∧
    (addFamily (addFamily w5File w5Fam).1 w5Fam).1.countConsensus =
      (addFamily w5File w5Fam).1.countConsensus ∧
    (addFamily (addFamily w5File w5Fam).1 w5Fam).1.countHmm =
      (addFamily w5File w5Fam).1.countHmm := by
  have h := (C5_duplicate_family (addFamily w5File w5Fam).1 w5Fam).1 (Or.inl (by decide))
  exact ⟨rfl, h.1, h.2.1, h.2.2⟩

/-- Fields of a successfully constructed lineage. -/
theorem mkLineage_ok_fields {t : LinList} {r : Bool} {p : Nat} {l : Lineage}
    (h : mkLineage t r p = Except.ok l) : l.root = r ∧ l.partition = p := by
  simp only [mkLineage] at h
  repeat' split at h
  all_goals first
    | exact Except.noConfusion h
    | (simp only [Except.ok.injEq] at h; subst h; exact ⟨rfl, rfl⟩)

/-- C6 (amended): splicing two lineages of the same ownership always
raises the ownership error; whenever a splice succeeds, the combined
lineage is root-owned and carries the root operand's partition number.
(Differing ownership alone does not guarantee success — see
`C6_counterexample` — which is the sole correction to the claim.) -/
theorem C6_splice_ownership (a b : Lineage) :
    (a.root = b.root →
      lineageAdd a b = Except.error "Must Combine Root and Non-Root Lineages") ∧
    (∀ c, lineageAdd a b = Except.ok c →
      c.root = true ∧ c.partition = (if a.root then a.partition else b.partition)) := by
  constructor
  · intro hroots
    cases h1 : a.root <;> cases h2 : b.root <;> simp_all [lineageAdd]
  · intro c h
    simp only [lineageAdd] at h
    repeat' split at h
    all_goals try exact Except.noConfusion h
    all_goals
      have hf := mkLineage_ok_fields h
    all_goals cases h1 : a.root <;> cases h2 : b.root <;> simp_all

/-- C6 (counterexample): two lineages of *different* ownership whose
splice still raises — the root operand carries an unresolved leaf link
while the non-root operand has no root-link map, so the source hits
`None.get(...)`.  Hence "raises exactly when the ownerships agree" is
too strong. -/
theorem C6_counterexample :
    mkLineage w6RootTree true 0 = Except.ok w6Root ∧
    mkLineage [PyTree.int 9606] false 3 = Except.ok c6Plain ∧
    w6Root.root ≠ c6Plain.root ∧
    lineageAdd w6Root c6Plain =
      Except.error "AttributeError: NoneType object has no attribute get" :=
  ⟨rfl, rfl, by decide, rfl⟩

/-- C6 witness: the amended theorem applied to a same-ownership pair and
to a successful splice. -/
theorem C6_witness :
    lineageAdd w6Root w6Root = Except.error "Must Combine Root and Non-Root Lineages" ∧
    lineageAdd w6Leaf w6Root = Except.ok w6Combined ∧
    w6Combined.root = true ∧ w6Combined.partition = 0 := by
  refine ⟨(C6_splice_ownership w6Root w6Root).1 rfl, rfl, ?_⟩
  exact (C6_splice_ownership w6Leaf w6Root).2 w6Combined rfl

/-- C10 (amended): `assemble_filters` applies no stage filter for stage
80 ("all stages"); for stage 95 it applies exactly the stage-set filter
`{35, 50, 55, 60, 65, 70, 75}`; for any other *nonzero* stage `s` it
applies exactly the single-stage filter `{s}`.  Stage 0 is Python-falsy
and — like a missing stage — applies no stage filter at all, which is
the sole correction to the claim (see `C10_counterexample`). -/
theorem stageArgs_append (l1 l2 : List FilterTag) :
    stageArgs (l1 ++ l2) = stageArgs l1 ++ stageArgs l2 :=
  List.filterMap_append ..

theorem stageArgs_curatedFilterPart (c u : Bool) :
    stageArgs (curatedFilterPart c u) = [] := by
  cases c <;> cases u <;> rfl

theorem stageArgs_hmmFilterPart (isHmm : Bool) (ss : List String) :
    stageArgs (hmmFilterPart isHmm ss) = [] := by
  unfold hmmFilterPart
  split_ifs <;> rfl

theorem stageArgs_repeatPart (v : Option String) :
    stageArgs (textFilterPart FilterTag.repeatF v).1 = [] := by
  rcases v with _ | r
  · rfl
  · simp only [textFilterPart]
    split_ifs <;> rfl

theorem stageArgs_namePart (v : Option String) :
    stageArgs (textFilterPart FilterTag.nameF v).1 = [] := by
  rcases v with _ | n
  · rfl
  · simp only [textFilterPart]
    split_ifs <;> rfl

/-- Only the stage part of `assemble_filters` contributes stage
filters, and the returned `stages` list is the stage part's. -/
theorem stageArgs_assembleFilters (kw : QueryKwargs) :
    stageArgs (assembleFilters kw).1 = stageArgs (stageFilterPart kw.stage).1 ∧
    (assembleFilters kw).2.1 = (stageFilterPart kw.stage).2 := by
  unfold assembleFilters
  refine ⟨?_, rfl⟩
  simp [stageArgs_append, stageArgs_curatedFilterPart, stageArgs_hmmFilterPart,
    stageArgs_repeatPart, stageArgs_namePart]

theorem C10_stage_filters (kw : QueryKwargs) :
    (kw.stage = some 80 →
      stageArgs (assembleFilters kw).1 = [] ∧ (assembleFilters kw).2.1 = []) ∧
    (kw.stage = some 95 →
      stageArgs (assembleFilters kw).1 = [stages95] ∧ (assembleFilters kw).2.1 = stages95) ∧
    (∀ s : Int, kw.stage = some s → s ≠ 0 → s ≠ 80 → s ≠ 95 →
      stageArgs (assembleFilters kw).1 = [[toString s]] ∧
      (assembleFilters kw).2.1 = [toString s]) ∧
    ((kw.stage = none ∨ kw.stage = some 0) → stageArgs (assembleFilters kw).1 = []) := by
  obtain ⟨hA, hB⟩ := stageArgs_assembleFilters kw
  refine ⟨?_, ?_, ?_, ?_⟩
  · intro h
    rw [hA, hB, h]
    exact ⟨rfl, rfl⟩
  · intro h
    rw [hA, hB, h]
    exact ⟨rfl, rfl⟩
  · intro s h hs0 hs80 hs95
    rw [hA, hB, h]
    simp only [stageFilterPart]
    rw [if_neg hs0, if_neg hs80, if_neg hs95]
    exact ⟨rfl, rfl⟩
  · rintro (h | h) <;> rw [hA, h] <;> rfl

/-- C10 (counterexample): calling `get_accessions_filtered(tax_id=1,
descendants=True, stage=0)` yields the family `a1` even though `a1` is
in no stage-0 index — the claimed single-stage predicate for stage 0
would have rejected it, but Python's `if filter_stage:` treats 0 as
false and installs no stage filter. -/
theorem C10_counterexample :
    getAccessionsFiltered w3State kw0 10 = Except.ok ["a1"] ∧
    evalFilter w3State "a1" (FilterTag.stageF [toString (0 : Int)]) = false :=
  ⟨rfl, rfl⟩

/-- C10 witness: the amended theorem applied at stages 80, 95, 35 and
0. -/
theorem C10_witness :
    (stageArgs (assembleFilters { stage := some 80 }).1 = [] ∧
      (assembleFilters { stage := some 80 }).2.1 = []) ∧
    (stageArgs (assembleFilters { stage := some 95 }).1 = [stages95] ∧
      (assembleFilters { stage := some 95 }).2.1 = stages95) ∧
    (stageArgs (assembleFilters { stage := some 35 }).1 = [[toString (35 : Int)]] ∧
      (assembleFilters { stage := some 35 }).2.1 = [toString (35 : Int)]) ∧
    stageArgs (assembleFilters { stage := some 0 }).1 = [] := by
  refine ⟨(C10_stage_filters _).1 rfl, (C10_stage_filters _).2.1 rfl,
    (C10_stage_filters _).2.2.1 35 rfl (by decide) (by decide) (by decide),
    (C10_stage_filters _).2.2.2 (Or.inr rfl)⟩

/-- Everything yielded by the de-duplicating loop avoids the `seen`
accumulator. -/
theorem dedupFilterGo_not_mem_seen (st : FamDBState) (filters : List FilterTag) :
    ∀ (accs seen : List String) (x : String),
      x ∈ dedupFilterGo st filters seen accs → x ∉ seen := by
  intro accs
  induction accs with
  | nil => intro seen x hx; exact absurd hx (List.not_mem_nil x)
  | cons a rest ih =>
    intro seen x hx
    unfold dedupFilterGo at hx
    split_ifs at hx with hseen hpass
    · exact ih seen x hx
    · rcases List.mem_cons.mp hx with h | h
      · subst h
        intro hmem
        exact absurd (List.elem_eq_true_of_mem hmem) (by simp_all)
      · intro hmem
        exact ih (a :: seen) x h (List.mem_cons_of_mem a hmem)
    · intro hmem
      exact ih (a :: seen) x hx (List.mem_cons_of_mem a hmem)

/-- The de-duplicating loop yields a duplicate-free list. -/
theorem dedupFilterGo_nodup (st : FamDBState) (filters : List FilterTag) :
    ∀ (accs seen : List String), (dedupFilterGo st filters seen accs).Nodup := by
  intro accs
  induction accs with
  | nil => intro seen; exact List.nodup_nil
  | cons a rest ih =>
    intro seen
    unfold dedupFilterGo
    split_ifs with hseen hpass
    · exact ih seen
    · refine List.nodup_cons.mpr ⟨?_, ih (a :: seen)⟩
      intro hmem
      exact dedupFilterGo_not_mem_seen st filters rest (a :: seen) a hmem (List.mem_cons_self a seen)
    · exact ih (a :: seen)

/-- C4: for every database state, every combination of filter keywords
and every plan the planner can pick, the accession list produced by
`get_accessions_filtered` contains each accession at most once. -/
theorem C4_no_duplicates (st : FamDBState) (kw : QueryKwargs) (fuel : Nat)
    (l : List String) (h : getAccessionsFiltered st kw fuel = Except.ok l) :
    l.Nodup := by
  unfold getAccessionsFiltered at h
  repeat' split at h
  all_goals try exact Except.noConfusion h
  simp only [Except.ok.injEq] at h
  subst h
  exact dedupFilterGo_nodup ..

/-- C4 witness: the query of the C3 scenario yields the duplicate-free
list `["a1"]`. -/
theorem C4_witness :
    getAccessionsFiltered w3State kw35 10 = Except.ok ["a1"] ∧ List.Nodup ["a1"] :=
  ⟨rfl, C4_no_duplicates w3State kw35 10 ["a1"] rfl⟩

/-- C8 (amended): `resolve_one_species` succeeds — returning a single
taxon id with its partition — exactly when there is exactly one exact
match or exactly one result of any kind; with more than one result and
no unique exact match it returns the `("Ambiguous", "Ambiguous")`
sentinel (the candidates themselves are only printed to stderr, not
carried in the return value — see `C8_counterexample`); with zero
results it returns the `(None, None)` sentinel. -/
theorem C8_resolve_one (nd : NamesDump) (term : String) (kind : Option String) :
    ((∃ t p, resolveOneSpecies nd term kind = ROSResult.found t p) ↔
      ((resolveSpecies nd term kind false).filter fun r => r.2.2).length = 1 ∨
        (resolveSpecies nd term kind false).length = 1) ∧
    ((resolveSpecies nd term kind false).length > 1 →
      ((resolveSpecies nd term kind false).filter fun r => r.2.2).length ≠ 1 →
      resolveOneSpecies nd term kind = ROSResult.ambiguousSentinel) ∧
    (resolveSpecies nd term kind false = [] →
      resolveOneSpecies nd term kind = ROSResult.noneSentinel) := by
  obtain ⟨R, hRdef⟩ : ∃ R, resolveSpecies nd term kind false = R := ⟨_, rfl⟩
  unfold resolveOneSpecies
  rw [hRdef]
  rcases hE : R.filter (fun r => r.2.2) with _ | ⟨e1, _ | ⟨e2, erest⟩⟩ <;> rw [hE]
  · -- no exact match: the second chain decides
    rcases R with _ | ⟨r1, _ | ⟨r2, rrest⟩⟩ <;> simp_all [resolveOneOutcome]
  · -- a unique exact match always wins
    have h1 : (R.filter fun r => r.2.2) ≠ [] := by rw [hE]; simp
    rcases R with _ | ⟨r1, _ | ⟨r2, rrest⟩⟩ <;> simp_all [resolveOneOutcome]
  · -- two or more exact matches: the results list has ≥ 2 entries
    have hlen2 := List.length_filter_le (fun r => r.2.2) R
    rw [hE] at hlen2
    rcases R with _ | ⟨r1, _ | ⟨r2, rrest⟩⟩
    · simp at hE
    · simp at hlen2
    · simp_all [resolveOneOutcome]

/-- C8 (counterexample): two database states with different candidate
sets produce the *same* ambiguous return value, so the returned outcome
cannot carry the candidate results (they are only printed). -/
theorem C8_counterexample :
    resolveOneSpecies amb8A "x" none = ROSResult.ambiguousSentinel ∧
    resolveOneSpecies amb8B "x" none = ROSResult.ambiguousSentinel ∧
    resolveSpecies amb8A "x" none false ≠ resolveSpecies amb8B "x" none false := by
  refine ⟨rfl, rfl, by decide⟩

/-- C8 witness: the amended theorem applied to the two-candidate state
(ambiguous branch) and to a single-exact-match state (success branch). -/
theorem C8_witness :
    resolveOneSpecies amb8A "x" none = ROSResult.ambiguousSentinel ∧
    (∃ t p, resolveOneSpecies w9Dump "9606" none = ROSResult.found t p) := by
  constructor
  · exact (C8_resolve_one amb8A "x" none).2.1 (by decide) (by decide)
  · exact (C8_resolve_one w9Dump "9606" none).1.mpr (Or.inr (by decide))

/-- Mapping the first component over a `filterMap` that preserves first
components yields a sublist of the original first components. -/
theorem filterMap_fst_sublist {β : Type} (f : (Nat × TaxNames) → Option (Nat × β))
    (hf : ∀ e x, f e = some x → x.1 = e.1) :
    ∀ l : List (Nat × TaxNames), ((l.filterMap f).map Prod.fst).Sublist (l.map Prod.fst) := by
  intro l
  induction l with
  | nil => exact List.Sublist.refl []
  | cons e t ih =>
    rw [List.filterMap_cons]
    cases hfe : f e with
    | none =>
      rw [List.map_cons]
      exact ih.cons e.1
    | some x =>
      rw [List.map_cons, List.map_cons, hf e x hfe]
      exact ih.cons₂ e.1

/-- The per-partition hit ids of `search_taxon_names` are a sublist of
that partition's taxon keys. -/
theorem searchTaxonNames_ids_sublist (text0 : String) (kind : Option String)
    (similar : Bool) (pr : Nat × List (Nat × TaxNames)) :
    (((pr.2.filterMap fun e =>
        if e.2.any fun nm => anyNameMatch (strLower text0) kind similar nm.1 nm.2 then
          some (e.1, (e.2.any fun nm => exactNameMatch (strLower text0) kind nm.1 nm.2), pr.1)
        else none).map Prod.fst).Sublist (pr.2.map Prod.fst)) := by
  refine filterMap_fst_sublist _ ?_ pr.2
  intro e x hx
  split_ifs at hx with hc
  simp only [Option.some.injEq] at hx
  rw [← hx]

/-- First component of a per-partition hit is the taxon key it came
from, and its last component is the partition key. -/
theorem searchTaxonNames_hit_shape {text0 : String} {kind : Option String}
    {similar : Bool} {pr : Nat × List (Nat × TaxNames)} {e : Nat × TaxNames}
    {y : Nat × Bool × Nat}
    (hx : (if e.2.any fun nm => anyNameMatch (strLower text0) kind similar nm.1 nm.2 then
        some (e.1, (e.2.any fun nm => exactNameMatch (strLower text0) kind nm.1 nm.2), pr.1)
      else none) = some y) : y.1 = e.1 ∧ y.2.2 = pr.1 := by
  split_ifs at hx with hc
  simp only [Option.some.injEq] at hx
  rw [← hx]
  exact ⟨rfl, rfl⟩

/-- Taxon ids yielded by `search_taxon_names` are distinct when the
names dump is well formed. -/
theorem searchTaxonNames_ids_nodup (nd : NamesDump) (text0 : String)
    (kind : Option String) (similar : Bool) (hwf : namesDumpWF nd) :
    ((searchTaxonNames nd text0 kind similar).map Prod.fst).Nodup := by
  unfold searchTaxonNames
  induction nd with
  | nil => exact List.nodup_nil
  | cons pr rest ih =>
    obtain ⟨hkeys, hinner, hdisj⟩ := hwf
    have hkeys' : (pr.1 :: rest.map Prod.fst).Nodup := by simpa using hkeys
    rw [List.flatMap_cons, List.map_append]
    refine List.Nodup.append ?_ ?_ ?_
    · exact (searchTaxonNames_ids_sublist text0 kind similar pr).nodup
        (hinner pr (List.mem_cons_self pr rest))
    · refine ih ⟨(List.nodup_cons.mp hkeys').2, ?_, ?_⟩
      · intro pr2 h2
        exact hinner pr2 (List.mem_cons_of_mem pr h2)
      · intro pr1 h1 pr2 h2 hne
        exact hdisj pr1 (List.mem_cons_of_mem pr h1) pr2 (List.mem_cons_of_mem pr h2) hne
    · intro x hx hx2
      obtain ⟨y, hy, hyx⟩ := List.mem_map.mp hx
      obtain ⟨e, he, hye⟩ := List.mem_filterMap.mp hy
      obtain ⟨z, hz, hzx⟩ := List.mem_map.mp hx2
      obtain ⟨pr2, hpr2, hz2⟩ := List.mem_flatMap.mp hz
      obtain ⟨e2, he2, hze2⟩ := List.mem_filterMap.mp hz2
      have hy1 := (searchTaxonNames_hit_shape hye).1
      have hz1 := (searchTaxonNames_hit_shape hze2).1
      have hne : pr.1 ≠ pr2.1 := by
        intro hpp
        exact (List.nodup_cons.mp hkeys').1 (hpp ▸ List.mem_map_of_mem Prod.fst hpr2)
      exact hdisj pr (List.mem_cons_self pr rest) pr2 (List.mem_cons_of_mem pr hpr2) hne
        e he e2 he2 (hy1.symm.trans ((hyx.trans hzx.symm).trans hz1))

theorem resolveSpecies_int {nd : NamesDump} {term : String} {kind : Option String}
    {similar : Bool} {n : Int} (h : pyInt term = some n) :
    resolveSpecies nd term kind similar = resolveSpeciesInt nd n := by
  unfold resolveSpecies
  rw [h]

theorem resolveSpecies_text {nd : NamesDump} {term : String} {kind : Option String}
    {similar : Bool} (h : pyInt term = none) :
    resolveSpecies nd term kind similar = resolveSpeciesText nd term kind similar := by
  unfold resolveSpecies
  rw [h]

/-- C9: in a well-formed names dump, a term that parses as an integer
present in the dump resolves directly to the single entry for that id
with its (unique) owning partition; for a text term every exact match
precedes every inexact match; each taxon id appears at most once; and a
matching taxon is reported with the exact flag set precisely to "some of
its names matched exactly". -/
theorem C9_resolve_species (nd : NamesDump) (term : String) (kind : Option String)
    (similar : Bool) (hwf : namesDumpWF nd) :
    (∀ (n : Int) (pr : Nat × List (Nat × TaxNames)), pyInt term = some n →
      nd.find? (fun pr2 => pr2.2.any fun e => (e.1 : Int) = n) = some pr →
      resolveSpecies nd term kind similar = [(n.toNat, pr.1, true)] ∧
      ∀ pr2 ∈ nd, (∃ e ∈ pr2.2, (e.1 : Int) = n) → pr2.1 = pr.1) ∧
    (pyInt term = none →
      ∃ l1 l2, resolveSpecies nd term kind similar = l1 ++ l2 ∧
        (∀ r ∈ l1, r.2.2 = true) ∧ (∀ r ∈ l2, r.2.2 = false)) ∧
    ((resolveSpecies nd term kind similar).map Prod.fst).Nodup ∧
    (pyInt term = none →
      ∀ pr ∈ nd, ∀ e ∈ pr.2,
        (e.2.any fun nm => anyNameMatch (strLower term) kind similar nm.1 nm.2) = true →
        (e.1, pr.1, (e.2.any fun nm => exactNameMatch (strLower term) kind nm.1 nm.2))
          ∈ resolveSpecies nd term kind similar) := by
  refine ⟨?_, ?_, ?_, ?_⟩
  · intro n pr hn hfind
    constructor
    · rw [resolveSpecies_int hn]
      unfold resolveSpeciesInt
      rw [hfind]
    · rintro pr2 hmem ⟨e2, he2, he2n⟩
      by_contra hne
      have hprmem := List.mem_of_find?_eq_some hfind
      have hpred := List.find?_some hfind
      obtain ⟨e1, he1, he1n⟩ := List.any_eq_true.mp hpred
      have he1n' : (e1.1 : Int) = n := of_decide_eq_true he1n
      have hne' : pr.1 ≠ pr2.1 := fun hpp => hne hpp.symm
      have hdiff := hwf.2.2 pr hprmem pr2 hmem hne' e1 he1 e2 he2
      exact hdiff (Int.natCast_inj.mp (he1n'.trans he2n.symm))
  · intro h
    rw [resolveSpecies_text h]
    unfold resolveSpeciesText
    refine ⟨_, _, rfl, ?_, ?_⟩
    · intro r hr
      obtain ⟨x, hx, hxr⟩ := List.mem_map.mp hr
      rw [← hxr]
    · intro r hr
      obtain ⟨x, hx, hxr⟩ := List.mem_map.mp hr
      rw [← hxr]
  · cases hpi : pyInt term with
    | some n =>
      rw [resolveSpecies_int hpi]
      unfold resolveSpeciesInt
      cases hfind : nd.find? (fun pr2 => pr2.2.any fun e => (e.1 : Int) = n) with
      | some pr => simp
      | none => simp
    | none =>
      rw [resolveSpecies_text hpi]
      have hperm : List.Perm ((resolveSpeciesText nd term kind similar).map Prod.fst)
          ((searchTaxonNames nd term kind similar).map Prod.fst) := by
        unfold resolveSpeciesText
        rw [List.map_append, List.map_map, List.map_map]
        have h1 : (Prod.fst ∘ fun h : Nat × Bool × Nat => (h.1, h.2.2, true)) = Prod.fst := by
          funext x
          rfl
        have h2 : (Prod.fst ∘ fun h : Nat × Bool × Nat => (h.1, h.2.2, false)) = Prod.fst := by
          funext x
          rfl
        rw [h1, h2, ← List.map_append]
        exact (List.filter_append_perm _ _).map Prod.fst
      exact hperm.nodup_iff.mpr (searchTaxonNames_ids_nodup nd term kind similar hwf)
  · intro h pr hpr e he hmatch
    rw [resolveSpecies_text h]
    have hhit : (e.1, (e.2.any fun nm => exactNameMatch (strLower term) kind nm.1 nm.2), pr.1)
        ∈ searchTaxonNames nd term kind similar := by
      unfold searchTaxonNames
      refine List.mem_flatMap.mpr ⟨pr, hpr, List.mem_filterMap.mpr ⟨e, he, ?_⟩⟩
      rw [if_pos hmatch]
    unfold resolveSpeciesText
    cases hflag : (e.2.any fun nm => exactNameMatch (strLower term) kind nm.1 nm.2) with
    | true =>
      rw [hflag] at hhit
      refine List.mem_append.mpr (Or.inl ?_)
      exact List.mem_map.mpr ⟨(e.1, true, pr.1), List.mem_filter.mpr ⟨hhit, rfl⟩, rfl⟩
    | false =>
      rw [hflag] at hhit
      refine List.mem_append.mpr (Or.inr ?_)
      exact List.mem_map.mpr ⟨(e.1, false, pr.1), List.mem_filter.mpr ⟨hhit, rfl⟩, rfl⟩

/-- C9 witness: the main theorem applied to `w9Dump` and the integer
term `"9606"`. -/
theorem C9_witness :
    namesDumpWF w9Dump ∧
    resolveSpecies w9Dump "9606" none false = [(9606, 3, true)] := by
  have hwf : namesDumpWF w9Dump := by
    refine ⟨?_, ?_, ?_⟩ <;> decide
  refine ⟨hwf, ?_⟩
  exact ((C9_resolve_species w9Dump "9606" none false hwf).1 9606
    (3, [(9606, [("scientific name", "Homo sapiens")])]) rfl rfl).1

/-- Membership in the de-duplicating filter loop: exactly the source
elements outside `seen` that pass every filter. -/
theorem mem_dedupFilterGo (st : FamDBState) (filters : List FilterTag) :
    ∀ (accs seen : List String) (x : String),
      x ∈ dedupFilterGo st filters seen accs ↔
        (x ∉ seen ∧ x ∈ accs ∧ evalFilters st filters x = true) := by
  intro accs
  induction accs with
  | nil =>
    intro seen x
    simp [dedupFilterGo]
  | cons a rest ih =>
    intro seen x
    unfold dedupFilterGo
    split_ifs with hseen hpass
    · rw [ih]
      constructor
      · rintro ⟨hx1, hx2, hx3⟩
        exact ⟨hx1, List.mem_cons_of_mem a hx2, hx3⟩
      · rintro ⟨hx1, hx2, hx3⟩
        rcases List.mem_cons.mp hx2 with h | h
        · subst h
          exact absurd (List.mem_of_elem_eq_true hseen) hx1
        · exact ⟨hx1, h, hx3⟩
    · constructor
      · intro hx
        rcases List.mem_cons.mp hx with h | h
        · subst h
          exact ⟨fun hm => hseen (List.elem_eq_true_of_mem hm), List.mem_cons_self _ _, hpass⟩
        · obtain ⟨hx1, hx2, hx3⟩ := (ih (a :: seen) x).mp h
          exact ⟨fun hm => hx1 (List.mem_cons_of_mem a hm), List.mem_cons_of_mem a hx2, hx3⟩
      · rintro ⟨hx1, hx2, hx3⟩
        rcases List.mem_cons.mp hx2 with h | h
        · subst h
          exact List.mem_cons_self x (dedupFilterGo st filters (x :: seen) rest)
        · by_cases hxa : x = a
          · subst hxa
            exact List.mem_cons_self x (dedupFilterGo st filters (x :: seen) rest)
          · refine List.mem_cons_of_mem a ((ih (a :: seen) x).mpr ⟨?_, h, hx3⟩)
            intro hm
            rcases List.mem_cons.mp hm with h' | h'
            · exact hxa h'
            · exact hx1 h'
    · rw [ih]
      constructor
      · rintro ⟨hx1, hx2, hx3⟩
        exact ⟨fun hm => hx1 (List.mem_cons_of_mem a hm), List.mem_cons_of_mem a hx2, hx3⟩
      · rintro ⟨hx1, hx2, hx3⟩
        rcases List.mem_cons.mp hx2 with h | h
        · subst h
          exact absurd hx3 hpass
        · refine ⟨?_, h, hx3⟩
          intro hm
          rcases List.mem_cons.mp hm with h' | h'
          · exact hpass (h' ▸ hx3)
          · exact hx1 h'

/-- The single-stage leaf filter is exactly membership in that stage's
index group. -/
theorem leafFilterStages_single (f : LeafFile) (acc stage : String) :
    leafFilterStages f acc [stage] = true ↔ acc ∈ byStageKeys f stage := by
  unfold leafFilterStages byStageKeys
  cases hfind : f.byStage.find? (fun pr => pr.1 = stage) with
  | none => simp [hfind]
  | some grp =>
    simp only [List.any_cons, List.any_nil, Bool.or_false, hfind]
    constructor
    · intro h
      exact List.mem_of_elem_eq_true h
    · intro h
      exact List.elem_eq_true_of_mem h

/-- A truthy `FamDB.filter_stages` on a single stage: the first open
file holding the family has the accession in that stage's index. -/
theorem famdbFilterStages_single (st : FamDBState) (acc stage : String) :
    (famdbFilterStages st acc [stage]).getD false = true ↔
      ∃ pf, st.files.find? (fun pr => (getFamilyByAccession pr.2 acc).isSome) = some pf ∧
        acc ∈ byStageKeys pf.2 stage := by
  unfold famdbFilterStages
  cases hfind : st.files.find? (fun pr => (getFamilyByAccession pr.2 acc).isSome) with
  | none => simp
  | some pf =>
    simp only [Option.map_some', Option.getD_some]
    rw [leafFilterStages_single]
    constructor
    · intro h
      exact ⟨pf, rfl, h⟩
    · rintro ⟨pf2, hpf2, hmem⟩
      rw [Option.some.injEq] at hpf2
      rw [← hpf2] at hmem
      exact hmem

/-- `get_accessions_filtered(tax_id=1, descendants=True, stage=35)`
takes the by-stage index plan with the single stage-35 filter. -/
theorem getAccessionsFiltered_kw35 (st : FamDBState) (fuel : Nat) :
    getAccessionsFiltered st kw35 fuel =
      Except.ok (dedupFilterGo st [FilterTag.stageF [toString (35 : Int)]] []
        ([toString (35 : Int)].flatMap fun stage =>
          st.files.flatMap fun pf => byStageKeys pf.2 stage)) := rfl

/-- C3: whenever every family record stored in an open partition is
directly associated with at least one taxon visited by the
whole-database descendant expansion, the accession set returned by
`get_accessions_filtered(tax_id=1, descendants=True, stage=35)` (the
by-stage index plan) is the same as the accession set returned by the
lineage tree-walk plan filtered with the equivalent stage-35
predicate. -/
theorem C3_plan_equivalence (st : FamDBState) (fuel : Nat) (l1 l2 : List String)
    (H : ∀ pf ∈ st.files, ∀ a ∈ pf.2.records.map Prod.fst,
      ∃ t ∈ visitedTaxa st fuel, a ∈ famsVia st t)
    (h1 : getAccessionsFiltered st kw35 fuel = Except.ok l1)
    (h2 : planCWalk st [FilterTag.stageF [toString (35 : Int)]] fuel = Except.ok l2)
    (x : String) : x ∈ l1 ↔ x ∈ l2 := by
  rw [getAccessionsFiltered_kw35] at h1
  simp only [Except.ok.injEq] at h1
  subst h1
  unfold planCWalk at h2
  cases hpc : planCSource st 1 false true fuel with
  | error e =>
    rw [hpc] at h2
    exact Except.noConfusion h2
  | ok accsC =>
    rw [hpc] at h2
    simp only [Except.ok.injEq] at h2
    subst h2
    have hP : ∀ y : String,
        evalFilters st [FilterTag.stageF [toString (35 : Int)]] y = true ↔
          (famdbFilterStages st y [toString (35 : Int)]).getD false = true := by
      intro y
      simp [evalFilters, evalFilter]
    have hmemC : ∀ y : String,
        (famdbFilterStages st y [toString (35 : Int)]).getD false = true → y ∈ accsC := by
      intro y hy
      obtain ⟨pf, hfind, hmem⟩ := (famdbFilterStages_single st y (toString (35 : Int))).mp hy
      have hpfmem := List.mem_of_find?_eq_some hfind
      have hpred := List.find?_some hfind
      have hrec : y ∈ pf.2.records.map Prod.fst := by
        unfold getFamilyByAccession at hpred
        cases hrf : pf.2.records.find? (fun pr => pr.1 = y) with
        | none => rw [hrf] at hpred; simp at hpred
        | some rec =>
          have hrecmem := List.mem_of_find?_eq_some hrf
          have hreceq : rec.1 = y := by
            have hq := List.find?_some hrf
            simpa using hq
          exact hreceq ▸ List.mem_map_of_mem Prod.fst hrecmem
      obtain ⟨t, htv, hfams⟩ := H pf hpfmem y hrec
      -- identify accsC with the flattened walk
      unfold planCSource at hpc
      cases hgc : getLineageCombined st 1 false true false fuel with
      | error e =>
        simp only [hgc] at hpc
        exact Except.noConfusion hpc
      | ok lin? =>
        cases lin? with
        | none =>
          simp only [hgc] at hpc
          unfold visitedTaxa at htv
          simp only [hgc] at htv
          exact absurd htv (List.not_mem_nil t)
        | some lin =>
          simp only [hgc] at hpc
          cases hwt : walkTreeL lin.tree with
          | error e =>
            simp only [hwt] at hpc
            exact Except.noConfusion hpc
          | ok nodes =>
            simp only [hwt, Except.ok.injEq] at hpc
            subst hpc
            unfold visitedTaxa at htv
            simp only [hgc, hwt] at htv
            exact List.mem_flatMap.mpr ⟨t, htv, hfams⟩
    rw [mem_dedupFilterGo, mem_dedupFilterGo]
    constructor
    · rintro ⟨-, hsrc, hpass⟩
      exact ⟨List.not_mem_nil x, hmemC x ((hP x).mp hpass), hpass⟩
    · rintro ⟨-, hsrc, hpass⟩
      refine ⟨List.not_mem_nil x, ?_, hpass⟩
      obtain ⟨pf, hfind, hmem⟩ :=
        (famdbFilterStages_single st x (toString (35 : Int))).mp ((hP x).mp hpass)
      have hpfmem := List.mem_of_find?_eq_some hfind
      refine List.mem_flatMap.mpr ⟨toString (35 : Int), List.mem_cons_self _ _, ?_⟩
      exact List.mem_flatMap.mpr ⟨pf, hpfmem, hmem⟩

/-- C3 witness: the plan equivalence applied to the one-partition state
`w3State`, whose single family `a1` sits under the visited taxon 1. -/
theorem C3_witness :
    (∀ pf ∈ w3State.files, ∀ a ∈ pf.2.records.map Prod.fst,
      ∃ t ∈ visitedTaxa w3State 10, a ∈ famsVia w3State t) ∧
    ("a1" ∈ ["a1"] ↔ "a1" ∈ ["a1"]) := by
  refine ⟨by decide, ?_⟩
  exact C3_plan_equivalence w3State 10 ["a1"] ["a1"] (by decide) rfl rfl "a1"

end FamDBModel
